import Mathlib

/-
Verification of the Blogger stream-sync service (src/server/index.js).

The file shallowly embeds the sync core of the service:
  readDB / writeDB                 (index.js lines 35-45)
  the feed normalizer              (index.js lines 121-136)
  identity resolution              (index.js line 140)
  content rendering                (index.js lines 144-156)
  escapeHtml                       (index.js lines 186-188)
  the sync loop syncAndCreatePosts (index.js lines 103-184)

Feed fields are modelled as `Option String` (a JSON field that is absent is
`none`; JavaScript truthiness on strings makes `""` falsy, which `truthyO`
and `jsOr` reproduce).  The one numeric feed field the code consumes,
`starts_at`, is modelled as `Option Int` with JavaScript number truthiness
(`0` is falsy).  The external world is passed in explicitly:
  - `stored : Option DB` is the outcome of `fs.readFileSync` + `JSON.parse`
    (`none` covers an absent, unreadable or unparsable db file);
  - `fetched : Option Feed` is the outcome of `fetch` + `resp.ok` + `resp.json()`
    (`none` covers a network error, a non-2xx response, and an unparsable body);
  - `pub : String → String → String → Option String` is the Blogger client:
    it receives exactly the title, content and label the code sends in
    `blogger.posts.insert` and returns the new post id, `none` modelling a
    rejected insert;
  - `fmt : Int → String` is `n => new Date(n * 1000).toLocaleString()`
    (locale-dependent date formatting, opaque to every claim);
  - `now : String` is `new Date().toISOString()`.
-/

/-- Model of a JavaScript value as far as `escapeHtml` can observe one
(floating-point specifics are irrelevant to the code, so numbers are `Int`). -/
inductive JSVal where
  | undef
  | null
  | bool (b : Bool)
  | num (n : Int)
  | str (s : String)
deriving DecidableEq

/-- JavaScript truthiness for `JSVal`. -/
def JSVal.truthy : JSVal → Bool
  | .undef => false
  | .null => false
  | .bool b => b
  | .num n => if n = 0 then false else true
  | .str s => if s = "" then false else true

/-- Model of the JavaScript `String(...)` coercion. -/
def JSVal.toStr : JSVal → String
  | .undef => "undefined"
  | .null => "null"
  | .bool b => if b then "true" else "false"
  | .num n => toString n
  | .str s => s

/-- Model of the replacement table in `escapeHtml` (index.js line 187):
the five characters matched by the regex `[&<>"']` map to their entities,
every other character maps to itself. -/
def escTable (c : Char) : List Char :=
  if c = '&' then ['&', 'a', 'm', 'p', ';']
  else if c = '<' then ['&', 'l', 't', ';']
  else if c = '>' then ['&', 'g', 't', ';']
  else if c = '"' then ['&', 'q', 'u', 'o', 't', ';']
  else if c = Char.ofNat 39 then ['&', '#', '3', '9', ';']
  else [c]

/-- Model of `.replace(/[&<>"']/g, c => table[c])`: the regex has a single
character class, so the global replace is the per-character map. -/
def escChars : List Char → List Char
  | [] => []
  | c :: rest => escTable c ++ escChars rest

/-- Model of `escapeHtml` (index.js lines 186-188):
`String(s || '').replace(/[&<>"']/g, c => ({..})[c])`. -/
def escapeHtml (v : JSVal) : String :=
  String.mk (escChars (JSVal.toStr (if v.truthy then v else JSVal.str "")).data)

/-- `escapeHtml` restricted to string arguments; inside the rendering code
every argument of `escapeHtml` is already a string. -/
def escapeHtmlStr (s : String) : String :=
  escapeHtml (JSVal.str s)

/-- JavaScript truthiness of an optional string field. -/
def truthyO (o : Option String) : Bool :=
  match o with
  | some v => if v = "" then false else true
  | none => false

/-- Model of `a || b` on an optional string `a` and a string fallback `b`:
the first truthy operand wins. -/
def jsOr : Option String → String → String
  | some v, d => if v = "" then d else v
  | none, d => d

/-- One element of `resolved_m3u8`. -/
structure M3U8Entry where
  url : Option String
deriving DecidableEq

/-- A feed stream object, with every field the code reads (all optional,
the feed schema is not validated). -/
structure StreamRecord where
  id : Option String
  uri_name : Option String
  name : Option String
  title : Option String
  tag : Option String
  starts_at : Option Int
  iframe : Option String
  resolved_m3u8 : List M3U8Entry
  poster : Option String
  category_name : Option String
  _category : Option String
deriving DecidableEq

/-- A category group of the nested feed shape: `cat.category`,
`cat.category_name` and `cat.streams` (the latter is `none` when
`Array.isArray(cat.streams)` fails). -/
structure CatGroup where
  category : Option String
  category_name : Option String
  streams : Option (List StreamRecord)
deriving DecidableEq

/-- A parsed feed document as the code distinguishes the shapes
(index.js lines 123 and 133): `nested` when `j.events` exists and
`j.events.streams` is an array, `flat` when `j` itself is an array,
`other` for anything else. -/
inductive Feed where
  | nested (cats : List CatGroup)
  | flat (ss : List StreamRecord)
  | other
deriving DecidableEq

/-- Model of the per-stream body of the nested-shape loop
(index.js lines 126-129): `if (!s.id && s.tag) s.id = s.tag;` followed by
`s._category = cat.category || cat.category_name || ''`. -/
def normalizeNestedStream (cat : CatGroup) (s : StreamRecord) : StreamRecord :=
  let s1 := if !(truthyO s.id) && truthyO s.tag then { s with id := s.tag } else s
  { s1 with _category := some (jsOr cat.category (jsOr cat.category_name "")) }

/-- Model of the stream collection block (index.js lines 122-136). -/
def collectStreams : Feed → List StreamRecord
  | Feed.nested cats =>
    cats.flatMap (fun cat =>
      match cat.streams with
      | some ss => ss.map (normalizeNestedStream cat)
      | none => [])
  | Feed.flat ss => ss
  | Feed.other => []

/-- Model of identity resolution (index.js line 140):
`String(s.id || s.uri_name || s.name || s.title || (s.tag || ''))`. -/
def sidOf (s : StreamRecord) : String :=
  jsOr s.id (jsOr s.uri_name (jsOr s.name (jsOr s.title (jsOr s.tag ""))))

/-- Model of the post title (index.js line 145):
`s.name || s.title || "Match " + sid`. -/
def titleOf (s : StreamRecord) : String :=
  jsOr s.name (jsOr s.title ("Match " ++ sidOf s))

/-- Model of the start-time string (index.js line 146): locale-formatted date
when `s.starts_at` is truthy, else the literal `'TBA'`.  `fmt` stands for
`n => new Date(Number(n) * 1000).toLocaleString()`. -/
def startsAtOf (fmt : Int → String) (s : StreamRecord) : String :=
  match s.starts_at with
  | some n => if n = 0 then "TBA" else fmt n
  | none => "TBA"

/-- Model of the embed URL choice (index.js line 147):
`s.iframe || s.resolved_m3u8?.[0]?.url || ''`. -/
def embedUrlOf (s : StreamRecord) : String :=
  jsOr s.iframe
    (jsOr (match s.resolved_m3u8 with
           | [] => none
           | m :: _ => m.url) "")

/-- Model of the post body (index.js lines 148-156): the template literal,
with every interpolated feed value passed through `escapeHtml`. -/
def renderContent (fmt : Int → String) (s : StreamRecord) : String :=
  let poster :=
    if truthyO s.poster then
      "<p><img src=\"" ++ escapeHtmlStr (jsOr s.poster "") ++
        "\" style=\"max-width:100%;height:auto\"></p>"
    else ""
  let ifr := embedUrlOf s
  "\n      <p><strong>Category:</strong> " ++
    escapeHtmlStr (jsOr s._category (jsOr s.category_name "")) ++
    "</p>\n      <p><strong>Starts:</strong> " ++
    escapeHtmlStr (startsAtOf fmt s) ++
    "</p>\n      " ++ poster ++
    "\n      <p>" ++ escapeHtmlStr (jsOr s.tag "") ++
    "</p>\n      " ++
    (if ifr = "" then ""
     else
       "<p><iframe src=\"" ++ escapeHtmlStr ifr ++
         "\" width=\"100%\" height=\"480\" frameborder=\"0\" allowfullscreen></iframe></p>") ++
    "\n      <p>Source: auto-generated from events JSON.</p>\n    "

/-- One entry of `db.postedIds` (index.js lines 168-172). -/
structure PublishedEntry where
  postId : String
  createdAt : String
  title : String
deriving DecidableEq

/-- The persisted ledger: `postedIds` is a JavaScript object modelled as an
association list in key-insertion order, `refresh_token` the stored
credential. -/
structure DB where
  postedIds : List (String × PublishedEntry)
  refresh_token : Option String
deriving DecidableEq

/-- Model of `readDB` (index.js lines 35-42): the parsed file on success,
`{ postedIds: {}, refresh_token: null }` when the file is absent, unreadable
or unparsable (the `catch` branch). -/
def readDB (stored : Option DB) : DB :=
  match stored with
  | some db => db
  | none => { postedIds := [], refresh_token := none }

/-- Model of property access `obj[k]`: the entry stored under `k`, if any. -/
def getKey : List (String × PublishedEntry) → String → Option PublishedEntry
  | [], _ => none
  | (k, v) :: rest, x => if k = x then some v else getKey rest x

/-- Model of property assignment `obj[k] = v`: replaces the entry under `k`
in place if the key exists, else appends it (JavaScript key-insertion
order). -/
def setKey : List (String × PublishedEntry) → String → PublishedEntry →
    List (String × PublishedEntry)
  | [], k, v => [(k, v)]
  | (k1, v1) :: rest, k, v =>
    if k1 = k then (k, v) :: rest else (k1, v1) :: setKey rest k v

/-- Number of entries stored under key `x`. -/
def countKey : List (String × PublishedEntry) → String → Nat
  | [], _ => 0
  | (k, _) :: rest, x => (if k = x then 1 else 0) + countKey rest x

/-- One element of the `created` array (index.js line 173). -/
structure CreatedEntry where
  sid : String
  postId : String
  title : String
deriving DecidableEq

/-- The value returned by a successful pass (index.js line 183). -/
structure SyncResult where
  createdCount : Nat
  created : List CreatedEntry
deriving DecidableEq

/-- The two pass-level failures of `syncAndCreatePosts`: the missing
refresh-token throw (line 108) and the feed retrieval / parse failures
(lines 117-119). -/
inductive SyncError where
  | missingCredential
  | feedFetch
deriving DecidableEq

/-- Result of one pass: a `SyncResult` or a thrown pass-level error. -/
inductive PassResult where
  | ok (r : SyncResult)
  | error (e : SyncError)
deriving DecidableEq

/-- Everything observable about one invocation of `syncAndCreatePosts`:
its return value or thrown error, the in-memory db at the end, whether
`writeDB` ran, and the identities for which `blogger.posts.insert` was
invoked, in invocation order (the code logs exactly `sid` on a failed
insert, line 177). -/
structure SyncOutcome where
  result : PassResult
  db : DB
  saved : Bool
  pubCalls : List String
deriving DecidableEq

/-- The arguments the loop passes to `blogger.posts.insert` for a record
(index.js lines 160-167): title, content, and the single label
`s._category || 'match'`. -/
def pubFor (fmt : Int → String) (pub : String → String → String → Option String)
    (s : StreamRecord) : Option String :=
  pub (titleOf s) (renderContent fmt s) (jsOr s._category "match")

/-- Model of the per-record loop (index.js lines 139-180): skip on empty
identity, skip on `db.postedIds[sid]`, otherwise publish; on success record
the entry and extend `created`, on a thrown insert error log and continue.
Returns the final `postedIds`, the `created` list and the attempted
identities in order. -/
def processStreams (fmt : Int → String) (pub : String → String → String → Option String)
    (now : String) :
    List (String × PublishedEntry) → List StreamRecord →
      List (String × PublishedEntry) × List CreatedEntry × List String
  | pids, [] => (pids, [], [])
  | pids, s :: rest =>
    let sid := sidOf s
    if sid = "" then processStreams fmt pub now pids rest
    else
      match getKey pids sid with
      | some _ => processStreams fmt pub now pids rest
      | none =>
        match pubFor fmt pub s with
        | some postId =>
          let out := processStreams fmt pub now
            (setKey pids sid { postId := postId, createdAt := now, title := titleOf s }) rest
          (out.1, { sid := sid, postId := postId, title := titleOf s } :: out.2.1,
            sid :: out.2.2)
        | none =>
          let out := processStreams fmt pub now pids rest
          (out.1, out.2.1, sid :: out.2.2)

/-- Model of `syncAndCreatePosts` (index.js lines 103-184).  The throw on a
missing refresh token happens before the fetch; any fetch failure aborts
before the loop; on the success path the loop runs and `writeDB` is executed
once at the end. -/
def syncAndCreatePosts (fmt : Int → String)
    (pub : String → String → String → Option String) (now : String)
    (stored : Option DB) (fetched : Option Feed) : SyncOutcome :=
  let db := readDB stored
  if truthyO db.refresh_token then
    match fetched with
    | none => { result := .error .feedFetch, db := db, saved := false, pubCalls := [] }
    | some j =>
      let streams := collectStreams j
      let out := processStreams fmt pub now db.postedIds streams
      { result := .ok { createdCount := out.2.1.length, created := out.2.1 },
        db := { db with postedIds := out.1 },
        saved := true,
        pubCalls := out.2.2 }
  else
    { result := .error .missingCredential, db := db, saved := false, pubCalls := [] }

/-- A primitive file-system operation, for stating what `writeDB` does to
the store. -/
inductive FsOp where
  | write (path : String) (content : String)
  | rename (src : String) (dst : String)
deriving DecidableEq

/-- Model of the serialized ledger (`JSON.stringify(db, null, 2)`,
index.js line 44); exact whitespace is irrelevant to every claim, the shape
(an object literal that starts with a brace) is what matters. -/
def serializeEntry (kv : String × PublishedEntry) : String :=
  "\"" ++ kv.1 ++ "\": \x7b \"postId\": \"" ++ kv.2.postId ++
    "\", \"createdAt\": \"" ++ kv.2.createdAt ++
    "\", \"title\": \"" ++ kv.2.title ++ "\" \x7d"

/-- Comma-separated join, for `serializeDB`. -/
def joinComma : List String → String
  | [] => ""
  | [x] => x
  | x :: rest => x ++ ", " ++ joinComma rest

/-- Serialized form of the credential field. -/
def serializeTok : Option String → String
  | some t => "\"" ++ t ++ "\""
  | none => "null"

/-- Serialized form of the whole ledger. -/
def serializeDB (db : DB) : String :=
  "\x7b \"postedIds\": \x7b " ++ joinComma (db.postedIds.map serializeEntry) ++
    " \x7d, \"refresh_token\": " ++ serializeTok db.refresh_token ++ " \x7d"

/-- Model of `writeDB` (index.js lines 43-45) as the file-system trace it
performs: a single `fs.writeFileSync(DB_FILE, JSON.stringify(db, null, 2))`,
nothing else. -/
def writeDB (dbFile : String) (db : DB) : List FsOp :=
  [FsOp.write dbFile (serializeDB db)]

/-- Whether an operation writes directly to `target`. -/
def directlyWrites (target : String) (op : FsOp) : Bool :=
  match op with
  | .write p _ => p = target
  | .rename _ _ => false

/-- Whether an operation renames some path onto `target`. -/
def renamesOnto (target : String) (op : FsOp) : Bool :=
  match op with
  | .rename _ d => d = target
  | .write _ _ => false

/-- The write-to-temp-then-rename discipline: the trace never writes the
target path directly and installs the content with a rename onto it. -/
def usesTempThenRename (target : String) (ops : List FsOp) : Bool :=
  ops.all (fun op => !(directlyWrites target op)) && ops.any (renamesOnto target)

/-- Crash model of a single non-atomic write: a process crash mid-write
leaves the target file holding an arbitrary length-`k` truncation of the
new content. -/
def writeCrashStates (content : String) : List String :=
  (List.range (content.length + 1)).map (fun k => content.take k)

/-- One global replacement of the character `c` by the character sequence
`rep`, for the specification-side reading of escaping. -/
def replaceCharChars (c : Char) (rep : List Char) : List Char → List Char
  | [] => []
  | d :: rest => (if d = c then rep else [d]) ++ replaceCharChars c rep rest

/-- Specification-side escaping, following the spec's words: each occurrence
of ampersand, less-than, greater-than, double-quote and single-quote is
replaced by its HTML entity, as five successive global replacements
(ampersand first). -/
def specEscapeChars (l : List Char) : List Char :=
  replaceCharChars (Char.ofNat 39) ['&', '#', '3', '9', ';']
    (replaceCharChars '"' ['&', 'q', 'u', 'o', 't', ';']
      (replaceCharChars '>' ['&', 'g', 't', ';']
        (replaceCharChars '<' ['&', 'l', 't', ';']
          (replaceCharChars '&' ['&', 'a', 'm', 'p', ';'] l))))

/-- Specification-side escaping on strings. -/
def specEscape (s : String) : String :=
  String.mk (specEscapeChars s.data)

/-- A string free of raw markup characters: no less-than, greater-than,
double-quote or single-quote character occurs in it. -/
def noRawMarkup (t : String) : Prop :=
  ∀ c ∈ t.data, c ≠ '<' ∧ c ≠ '>' ∧ c ≠ '"' ∧ c ≠ Char.ofNat 39

/-- Number of occurrences of the character `c` in a character list. -/
def countCh (c : Char) : List Char → Nat
  | [] => 0
  | d :: rest => (if d = c then 1 else 0) + countCh c rest

/-- Number of occurrences of the character `c` in a string. -/
def countChar (c : Char) (s : String) : Nat :=
  countCh c s.data

/-- First non-empty candidate of a list of optional strings, else `""`. -/
def firstNonEmpty : List (Option String) → String
  | [] => ""
  | none :: rest => firstNonEmpty rest
  | some v :: rest => if v = "" then firstNonEmpty rest else v

/-- Specification-side identity resolution, following the spec's words:
the first non-empty candidate in the fixed order explicit id, uri-name,
name, title, tag. -/
def specIdentity (s : StreamRecord) : String :=
  firstNonEmpty [s.id, s.uri_name, s.name, s.title, s.tag]

/-- Lookup through the ledger entries recorded for a `created` list during a
pass, falling back to a prior binding; used to characterize the final
`postedIds`. -/
def lookupCreated (cs : List CreatedEntry) (now x : String)
    (dflt : Option PublishedEntry) : Option PublishedEntry :=
  match cs with
  | [] => dflt
  | e :: rest =>
    if e.sid = x then some { postId := e.postId, createdAt := now, title := e.title }
    else lookupCreated rest now x dflt

/-- The identities the loop attempts starting from the ledger snapshot
`pids`, assuming pairwise-distinct identities in `l`: the records not yet
published, in feed order. -/
def callsFrom (pids : List (String × PublishedEntry)) (l : List StreamRecord) :
    List String :=
  (l.filter (fun s => (getKey pids (sidOf s)).isNone)).map sidOf

/-- The `created` entries the loop produces from the ledger snapshot `pids`,
assuming pairwise-distinct identities in `l`: one entry per unpublished
record whose publish succeeds, in feed order. -/
def createdFrom (fmt : Int → String) (pub : String → String → String → Option String)
    (pids : List (String × PublishedEntry)) (l : List StreamRecord) :
    List CreatedEntry :=
  l.filterMap (fun s =>
    if (getKey pids (sidOf s)).isNone then
      (pubFor fmt pub s).map
        (fun pid => { sid := sidOf s, postId := pid, title := titleOf s })
    else none)

/-- A stream record with every optional field absent. -/
def emptyStreamRecord : StreamRecord :=
  { id := none, uri_name := none, name := none, title := none, tag := none,
    starts_at := none, iframe := none, resolved_m3u8 := [], poster := none,
    category_name := none, _category := none }

/-- A stream record carrying only a name. -/
def recNamed (nm : String) : StreamRecord :=
  { emptyStreamRecord with name := some nm }

/-- A concrete date formatter for concrete evaluations. -/
def fmt0 : Int → String := fun n => toString n

/-- A publisher that accepts every insert. -/
def pubOk : String → String → String → Option String := fun _ _ _ => some "pid"

/-- A publisher that rejects exactly the insert whose post title is `bad`. -/
def pubFailTitle (bad : String) : String → String → String → Option String :=
  fun t _ _ => if t = bad then none else some ("post-" ++ t)

/-- A nested-shape record with a tag and a name but no explicit id. -/
def demoTagName : StreamRecord :=
  { (recNamed "n") with tag := some "t" }

/-- A nested feed holding one category group with the one record above. -/
def demoNestedFeed : Feed :=
  Feed.nested [{ category := none, category_name := none,
                 streams := some [demoTagName] }]

/-- A flat feed of three records with distinct identities A, B, C. -/
def demoFeed3 : Feed :=
  Feed.flat [recNamed "A", recNamed "B", recNamed "C"]

/-- An empty ledger that does hold a credential. -/
def dbTok : DB :=
  { postedIds := [], refresh_token := some "tok" }

/-- A prior ledger entry for identity X. -/
def peX : PublishedEntry :=
  { postId := "p0", createdAt := "t0", title := "Match X" }

/-- A ledger with credential and identity X already published. -/
def dbWithX : DB :=
  { postedIds := [("X", peX)], refresh_token := some "tok" }

/-- Two distinct published entries, for the record-replacement example. -/
def pe1 : PublishedEntry :=
  { postId := "p1", createdAt := "t1", title := "T1" }

/-- Second of the two distinct published entries. -/
def pe2 : PublishedEntry :=
  { postId := "p2", createdAt := "t2", title := "T2" }

/-- Appending distributes over the per-character escape. -/
theorem escChars_append (l1 l2 : List Char) :
    escChars (l1 ++ l2) = escChars l1 ++ escChars l2 := by
  induction l1 with
  | nil => simp [escChars]
  | cons c rest ih => simp [escChars, ih]

/-- Appending distributes over one global replacement. -/
theorem replaceCharChars_append (c : Char) (rep : List Char) (l1 l2 : List Char) :
    replaceCharChars c rep (l1 ++ l2) =
      replaceCharChars c rep l1 ++ replaceCharChars c rep l2 := by
  induction l1 with
  | nil => simp [replaceCharChars]
  | cons d rest ih => simp [replaceCharChars, ih]

/-- Appending distributes over the specification-side escape. -/
theorem specEscapeChars_append (l1 l2 : List Char) :
    specEscapeChars (l1 ++ l2) = specEscapeChars l1 ++ specEscapeChars l2 := by
  simp [specEscapeChars, replaceCharChars_append]

/-- On a single character the five successive replacements agree with the
per-character entity table. -/
theorem specEscapeChars_single (d : Char) : specEscapeChars [d] = escTable d := by
  by_cases h1 : d = '&'
  · subst h1; decide
  · by_cases h2 : d = '<'
    · subst h2; decide
    · by_cases h3 : d = '>'
      · subst h3; decide
      · by_cases h4 : d = '"'
        · subst h4; decide
        · by_cases h5 : d = Char.ofNat 39
          · subst h5; decide
          · simp [specEscapeChars, replaceCharChars, escTable, h1, h2, h3, h4, h5]

/-- The code's per-character escape equals the specification-side five-pass
replacement. -/
theorem escChars_eq_specEscapeChars (l : List Char) :
    escChars l = specEscapeChars l := by
  induction l with
  | nil => rfl
  | cons d rest ih =>
    calc escChars (d :: rest) = escTable d ++ escChars rest := rfl
    _ = escTable d ++ specEscapeChars rest := by rw [ih]
    _ = specEscapeChars [d] ++ specEscapeChars rest := by rw [specEscapeChars_single]
    _ = specEscapeChars ([d] ++ rest) := (specEscapeChars_append _ _).symm
    _ = specEscapeChars (d :: rest) := rfl

/-- On string arguments `escapeHtml` is the per-character escape of the
string's characters. -/
theorem escapeHtmlStr_eq_mk (s : String) :
    escapeHtmlStr s = String.mk (escChars s.data) := by
  by_cases h : s = ""
  · subst h; rfl
  · simp [escapeHtmlStr, escapeHtml, JSVal.truthy, JSVal.toStr, h]

/-- Every character produced by the entity table is markup-safe. -/
theorem escTable_safe (d c : Char) (hc : c ∈ escTable d) :
    c ≠ '<' ∧ c ≠ '>' ∧ c ≠ '"' ∧ c ≠ Char.ofNat 39 := by
  by_cases h1 : d = '&'
  · subst h1
    have he : escTable '&' = ['&', 'a', 'm', 'p', ';'] := by decide
    rw [he] at hc
    fin_cases hc <;> decide
  · by_cases h2 : d = '<'
    · subst h2
      have he : escTable '<' = ['&', 'l', 't', ';'] := by decide
      rw [he] at hc
      fin_cases hc <;> decide
    · by_cases h3 : d = '>'
      · subst h3
        have he : escTable '>' = ['&', 'g', 't', ';'] := by decide
        rw [he] at hc
        fin_cases hc <;> decide
      · by_cases h4 : d = '"'
        · subst h4
          have he : escTable '"' = ['&', 'q', 'u', 'o', 't', ';'] := by decide
          rw [he] at hc
          fin_cases hc <;> decide
        · by_cases h5 : d = Char.ofNat 39
          · subst h5
            have he : escTable (Char.ofNat 39) = ['&', '#', '3', '9', ';'] := by decide
            rw [he] at hc
            fin_cases hc <;> decide
          · have he : escTable d = [d] := by simp [escTable, h1, h2, h3, h4, h5]
            rw [he] at hc
            have hcd : c = d := by simpa using hc
            subst hcd
            exact ⟨h2, h3, h4, h5⟩

/-- Every character of an escaped string is markup-safe. -/
theorem mem_escChars_safe (l : List Char) (c : Char) (hc : c ∈ escChars l) :
    c ≠ '<' ∧ c ≠ '>' ∧ c ≠ '"' ∧ c ≠ Char.ofNat 39 := by
  induction l with
  | nil => simp [escChars] at hc
  | cons d rest ih =>
    rw [show escChars (d :: rest) = escTable d ++ escChars rest from rfl] at hc
    rcases List.mem_append.mp hc with h | h
    · exact escTable_safe d c h
    · exact ih h

/-- Counting distributes over append. -/
theorem countCh_append (c : Char) (l1 l2 : List Char) :
    countCh c (l1 ++ l2) = countCh c l1 + countCh c l2 := by
  induction l1 with
  | nil => simp [countCh]
  | cons d rest ih => simp [countCh, ih]; omega

/-- A list without occurrences of `c` counts zero. -/
theorem countCh_eq_zero (c : Char) (l : List Char) (h : ∀ x ∈ l, x ≠ c) :
    countCh c l = 0 := by
  induction l with
  | nil => rfl
  | cons d rest ih =>
    have hd : d ≠ c := h d (List.mem_cons_self d rest)
    simp [countCh, hd]
    exact ih (fun x hx => h x (List.mem_cons_of_mem d hx))

/-- An escaped string contains no less-than character. -/
theorem countChar_lt_escapeHtmlStr (v : String) :
    countChar '<' (escapeHtmlStr v) = 0 := by
  rw [escapeHtmlStr_eq_mk]
  exact countCh_eq_zero _ _ (fun x hx => (mem_escChars_safe v.data x hx).1)

/-- `String.append` concatenates the character lists. -/
theorem dataAppend (a b : String) : (a ++ b).data = a.data ++ b.data := by
  cases a; cases b; rfl

/-- Lookup after assignment: the assigned key maps to the new value, every
other key is untouched. -/
theorem getKey_setKey (l : List (String × PublishedEntry)) (k : String)
    (v : PublishedEntry) (x : String) :
    getKey (setKey l k v) x = if k = x then some v else getKey l x := by
  induction l with
  | nil => simp [setKey, getKey]
  | cons p rest ih =>
    obtain ⟨k1, v1⟩ := p
    by_cases h : k1 = k
    · subst h
      by_cases hx : k1 = x <;> simp [setKey, getKey, hx]
    · by_cases hx : k1 = x
      · subst hx
        have hk : ¬ k = k1 := fun he => h he.symm
        simp [setKey, getKey, h, hk]
      · simp [setKey, getKey, h, hx, ih]

/-- Assignment of a fresh key appends it to the key sequence. -/
theorem keys_setKey_none (l : List (String × PublishedEntry)) (k : String)
    (v : PublishedEntry) (h : getKey l k = none) :
    (setKey l k v).map Prod.fst = l.map Prod.fst ++ [k] := by
  induction l with
  | nil => simp [setKey]
  | cons p rest ih =>
    obtain ⟨k1, v1⟩ := p
    by_cases hk : k1 = k
    · rw [show getKey ((k1, v1) :: rest) k = if k1 = k then some v1 else getKey rest k
        from rfl, if_pos hk] at h
      exact absurd h (by simp)
    · rw [show getKey ((k1, v1) :: rest) k = if k1 = k then some v1 else getKey rest k
        from rfl, if_neg hk] at h
      simp [setKey, hk, ih h]

/-- Assignment under a different key leaves the multiplicity of `x`
unchanged. -/
theorem countKey_setKey_ne (l : List (String × PublishedEntry)) (k : String)
    (v : PublishedEntry) (x : String) (h : k ≠ x) :
    countKey (setKey l k v) x = countKey l x := by
  induction l with
  | nil => simp [setKey, countKey, h]
  | cons p rest ih =>
    obtain ⟨k1, v1⟩ := p
    by_cases hk : k1 = k
    · subst hk
      simp [setKey, countKey, h]
    · simp [setKey, countKey, hk, ih]

/-- A key is absent exactly when it does not occur in the key sequence. -/
theorem getKey_eq_none_iff (l : List (String × PublishedEntry)) (x : String) :
    getKey l x = none ↔ x ∉ l.map Prod.fst := by
  induction l with
  | nil => simp [getKey]
  | cons p rest ih =>
    obtain ⟨k1, v1⟩ := p
    rw [show getKey ((k1, v1) :: rest) x = if k1 = x then some v1 else getKey rest x
      from rfl]
    by_cases hk : k1 = x
    · subst hk; simp
    · rw [if_neg hk, List.map_cons, List.mem_cons]
      constructor
      · intro h hmem
        rcases hmem with he | hm
        · exact hk he.symm
        · exact (ih.mp h) hm
      · intro h
        exact ih.mpr (fun hm => h (Or.inr hm))

/-- Replacing an existing key keeps the number of entries. -/
theorem length_setKey_isSome (l : List (String × PublishedEntry)) (k : String)
    (v : PublishedEntry) (h : (getKey l k).isSome = true) :
    (setKey l k v).length = l.length := by
  induction l with
  | nil => simp [getKey] at h
  | cons p rest ih =>
    obtain ⟨k1, v1⟩ := p
    by_cases hk : k1 = k
    · simp [setKey, hk]
    · rw [show getKey ((k1, v1) :: rest) k = if k1 = k then some v1 else getKey rest k
        from rfl, if_neg hk] at h
      simp [setKey, hk, ih h]

/-- The assigned key is bound to the assigned value afterwards. -/
theorem getKey_setKey_self (l : List (String × PublishedEntry)) (k : String)
    (v : PublishedEntry) : getKey (setKey l k v) k = some v := by
  rw [getKey_setKey]
  simp

/-- Unfolding of the loop on an empty stream list. -/
theorem processStreams_nil (fmt : Int → String)
    (pub : String → String → String → Option String) (now : String)
    (pids : List (String × PublishedEntry)) :
    processStreams fmt pub now pids [] = (pids, [], []) := rfl

/-- Unfolding of one loop iteration. -/
theorem processStreams_cons (fmt : Int → String)
    (pub : String → String → String → Option String) (now : String)
    (pids : List (String × PublishedEntry)) (s : StreamRecord)
    (rest : List StreamRecord) :
    processStreams fmt pub now pids (s :: rest) =
      (if sidOf s = "" then processStreams fmt pub now pids rest
       else
         match getKey pids (sidOf s) with
         | some _ => processStreams fmt pub now pids rest
         | none =>
           match pubFor fmt pub s with
           | some postId =>
             let out := processStreams fmt pub now
               (setKey pids (sidOf s)
                 { postId := postId, createdAt := now, title := titleOf s }) rest
             (out.1, { sid := sidOf s, postId := postId, title := titleOf s } :: out.2.1,
               sidOf s :: out.2.2)
           | none =>
             let out := processStreams fmt pub now pids rest
             (out.1, out.2.1, sidOf s :: out.2.2)) := rfl

/-- An identity already present in the ledger snapshot is never attempted,
its binding never changes, and its multiplicity never changes. -/
theorem processStreams_preserved (fmt : Int → String)
    (pub : String → String → String → Option String) (now : String)
    (l : List StreamRecord) :
    ∀ (pids : List (String × PublishedEntry)) (x : String),
      (getKey pids x).isSome = true →
      x ∉ (processStreams fmt pub now pids l).2.2 ∧
      getKey (processStreams fmt pub now pids l).1 x = getKey pids x ∧
      countKey (processStreams fmt pub now pids l).1 x = countKey pids x := by
  induction l with
  | nil =>
    intro pids x hx
    simp [processStreams_nil]
  | cons s rest ih =>
    intro pids x hx
    rw [processStreams_cons]
    by_cases hs : sidOf s = ""
    · rw [if_pos hs]; exact ih pids x hx
    · rw [if_neg hs]
      cases hk : getKey pids (sidOf s) with
      | some v => exact ih pids x hx
      | none =>
        have hne : sidOf s ≠ x := by
          intro he
          rw [he] at hk
          rw [hk] at hx
          simp at hx
        cases hp : pubFor fmt pub s with
        | none =>
          obtain ⟨h1, h2, h3⟩ := ih pids x hx
          refine ⟨?_, h2, h3⟩
          simp only [List.mem_cons]
          rintro (he | hm)
          · exact hne he.symm
          · exact h1 hm
        | some postId =>
          have hx2 : (getKey (setKey pids (sidOf s)
              { postId := postId, createdAt := now, title := titleOf s }) x).isSome = true := by
            rw [getKey_setKey, if_neg hne]; exact hx
          obtain ⟨h1, h2, h3⟩ := ih (setKey pids (sidOf s)
            { postId := postId, createdAt := now, title := titleOf s }) x hx2
          have hgx : getKey (setKey pids (sidOf s)
              { postId := postId, createdAt := now, title := titleOf s }) x = getKey pids x := by
            rw [getKey_setKey, if_neg hne]
          have hcx : countKey (setKey pids (sidOf s)
              { postId := postId, createdAt := now, title := titleOf s }) x = countKey pids x :=
            countKey_setKey_ne _ _ _ _ hne
          dsimp only
          refine ⟨?_, ?_, ?_⟩
          · simp only [List.mem_cons]
            rintro (he | hm)
            · exact hne he.symm
            · exact h1 hm
          · rw [h2, hgx]
          · rw [h3, hcx]

/-- Every `created` entry was unpublished in the snapshot the loop started
from, and the created identities are pairwise distinct. -/
theorem processStreams_created (fmt : Int → String)
    (pub : String → String → String → Option String) (now : String)
    (l : List StreamRecord) :
    ∀ pids,
      (∀ e ∈ (processStreams fmt pub now pids l).2.1, getKey pids e.sid = none) ∧
      (((processStreams fmt pub now pids l).2.1).map CreatedEntry.sid).Nodup := by
  induction l with
  | nil => intro pids; simp [processStreams_nil]
  | cons s rest ih =>
    intro pids
    rw [processStreams_cons]
    by_cases hs : sidOf s = ""
    · rw [if_pos hs]; exact ih pids
    · rw [if_neg hs]
      cases hk : getKey pids (sidOf s) with
      | some v => exact ih pids
      | none =>
        cases hp : pubFor fmt pub s with
        | none =>
          dsimp only
          exact ih pids
        | some postId =>
          dsimp only
          obtain ⟨ihA, ihB⟩ := ih (setKey pids (sidOf s)
            { postId := postId, createdAt := now, title := titleOf s })
          constructor
          · intro e he
            rcases List.mem_cons.mp he with he1 | hm
            · rw [he1]
              exact hk
            · have h2 := ihA e hm
              rw [getKey_setKey] at h2
              by_cases hse : sidOf s = e.sid
              · rw [if_pos hse] at h2
                exact absurd h2 (by simp)
              · rw [if_neg hse] at h2
                exact h2
          · simp only [List.map_cons, List.nodup_cons]
            constructor
            · intro hmem
              rcases List.mem_map.mp hmem with ⟨e, he, hesid⟩
              have h2 := ihA e he
              rw [getKey_setKey, if_pos hesid.symm] at h2
              exact absurd h2 (by simp)
            · exact ihB

/-- Every record with a non-empty identity is either attempted during the
loop or already published in the snapshot the loop started from. -/
theorem processStreams_attempts (fmt : Int → String)
    (pub : String → String → String → Option String) (now : String)
    (l : List StreamRecord) :
    ∀ pids, ∀ s ∈ l, sidOf s ≠ "" →
      sidOf s ∈ (processStreams fmt pub now pids l).2.2 ∨
      (getKey pids (sidOf s)).isSome = true := by
  induction l with
  | nil => intro pids s hs; exact absurd hs (List.not_mem_nil s)
  | cons t rest ih =>
    intro pids s hs hsid
    rw [processStreams_cons]
    by_cases ht : sidOf t = ""
    · rw [if_pos ht]
      rcases List.mem_cons.mp hs with he | hm
      · rw [he] at hsid
        exact absurd ht hsid
      · exact ih pids s hm hsid
    · rw [if_neg ht]
      cases hk : getKey pids (sidOf t) with
      | some v =>
        rcases List.mem_cons.mp hs with he | hm
        · right
          rw [he, hk]
          rfl
        · exact ih pids s hm hsid
      | none =>
        cases hp : pubFor fmt pub t with
        | none =>
          dsimp only
          rcases List.mem_cons.mp hs with he | hm
          · left
            rw [he]
            exact List.mem_cons_self _ _
          · rcases ih pids s hm hsid with hin | hpub
            · exact Or.inl (List.mem_cons_of_mem _ hin)
            · exact Or.inr hpub
        | some postId =>
          dsimp only
          rcases List.mem_cons.mp hs with he | hm
          · left
            rw [he]
            exact List.mem_cons_self _ _
          · rcases ih (setKey pids (sidOf t)
              { postId := postId, createdAt := now, title := titleOf t }) s hm hsid with
              hin | hpub
            · exact Or.inl (List.mem_cons_of_mem _ hin)
            · rw [getKey_setKey] at hpub
              by_cases hts : sidOf t = sidOf s
              · left
                rw [← hts]
                exact List.mem_cons_self _ _
              · rw [if_neg hts] at hpub
                exact Or.inr hpub

/-- Filtering with pointwise-equal predicates is equal. -/
theorem filterCongrMem {α : Type} (p q : α → Bool) :
    ∀ l : List α, (∀ x ∈ l, p x = q x) → l.filter p = l.filter q := by
  intro l
  induction l with
  | nil => intro _; rfl
  | cons a rest ih =>
    intro h
    have ha := h a (List.mem_cons_self a rest)
    simp only [List.filter_cons, ha,
      ih (fun x hx => h x (List.mem_cons_of_mem a hx))]

/-- Filter-mapping with pointwise-equal functions is equal. -/
theorem filterMapCongrMem {α β : Type} (f g : α → Option β) :
    ∀ l : List α, (∀ x ∈ l, f x = g x) → l.filterMap f = l.filterMap g := by
  intro l
  induction l with
  | nil => intro _; rfl
  | cons a rest ih =>
    intro h
    have ha := h a (List.mem_cons_self a rest)
    simp only [List.filterMap_cons, ha,
      ih (fun x hx => h x (List.mem_cons_of_mem a hx))]

/-- The attempted identities depend only on the bindings of the identities
occurring in the list. -/
theorem callsFrom_congr (pids pids2 : List (String × PublishedEntry))
    (l : List StreamRecord)
    (h : ∀ t ∈ l, getKey pids (sidOf t) = getKey pids2 (sidOf t)) :
    callsFrom pids l = callsFrom pids2 l := by
  unfold callsFrom
  rw [filterCongrMem _ _ l (fun t ht => by rw [h t ht])]

/-- The created entries depend only on the bindings of the identities
occurring in the list. -/
theorem createdFrom_congr (fmt : Int → String)
    (pub : String → String → String → Option String)
    (pids pids2 : List (String × PublishedEntry)) (l : List StreamRecord)
    (h : ∀ t ∈ l, getKey pids (sidOf t) = getKey pids2 (sidOf t)) :
    createdFrom fmt pub pids l = createdFrom fmt pub pids2 l := by
  unfold createdFrom
  exact filterMapCongrMem _ _ l (fun t ht => by rw [h t ht])

/-- Lookup through created entries falls through to the default when no
entry carries the key. -/
theorem lookupCreated_skip (cs : List CreatedEntry) (now x : String)
    (d : Option PublishedEntry) (h : ∀ e ∈ cs, e.sid ≠ x) :
    lookupCreated cs now x d = d := by
  induction cs with
  | nil => rfl
  | cons e rest ih =>
    simp only [lookupCreated]
    rw [if_neg (h e (List.mem_cons_self e rest))]
    exact ih (fun e2 he2 => h e2 (List.mem_cons_of_mem e he2))

/-- Lookup through created entries succeeds when some entry carries the
key. -/
theorem lookupCreated_isSome (cs : List CreatedEntry) (now x : String)
    (d : Option PublishedEntry) (h : x ∈ cs.map CreatedEntry.sid) :
    (lookupCreated cs now x d).isSome = true := by
  induction cs with
  | nil => simp at h
  | cons e rest ih =>
    simp only [lookupCreated]
    by_cases he : e.sid = x
    · rw [if_pos he]; rfl
    · rw [if_neg he]
      simp only [List.map_cons, List.mem_cons] at h
      rcases h with h1 | h2
      · exact absurd h1.symm he
      · exact ih h2

/-- Dissection of membership in the created entries. -/
theorem mem_createdFrom (fmt : Int → String)
    (pub : String → String → String → Option String)
    (pids : List (String × PublishedEntry)) (l : List StreamRecord)
    (e : CreatedEntry) (he : e ∈ createdFrom fmt pub pids l) :
    ∃ t ∈ l, e.sid = sidOf t ∧ e.title = titleOf t ∧
      getKey pids (sidOf t) = none ∧ pubFor fmt pub t = some e.postId := by
  rcases List.mem_filterMap.mp he with ⟨t, ht, hft⟩
  cases hgk : getKey pids (sidOf t) with
  | some v =>
    rw [hgk] at hft
    simp at hft
  | none =>
    rw [hgk] at hft
    simp only [Option.isNone_none, if_true] at hft
    rcases Option.map_eq_some'.mp hft with ⟨pid, hpid, hge⟩
    cases hge
    exact ⟨t, ht, rfl, rfl, hgk, hpid⟩

/-- A fresh identity whose publish succeeds appears among the created
identities. -/
theorem sid_mem_createdFrom (fmt : Int → String)
    (pub : String → String → String → Option String)
    (pids : List (String × PublishedEntry)) (l : List StreamRecord)
    (t : StreamRecord) (pid : String) (ht : t ∈ l)
    (hfresh : getKey pids (sidOf t) = none) (hp : pubFor fmt pub t = some pid) :
    sidOf t ∈ (createdFrom fmt pub pids l).map CreatedEntry.sid := by
  apply List.mem_map.mpr
  refine ⟨{ sid := sidOf t, postId := pid, title := titleOf t }, ?_, rfl⟩
  apply List.mem_filterMap.mpr
  refine ⟨t, ht, ?_⟩
  rw [hfresh, hp]
  simp

/-- A list whose image is duplicate-free maps equal images to equal
elements. -/
theorem nodup_map_inj {α β : Type} (f : α → β) :
    ∀ l : List α, (l.map f).Nodup →
      ∀ x ∈ l, ∀ y ∈ l, f x = f y → x = y := by
  intro l
  induction l with
  | nil => intro _ x hx; exact absurd hx (List.not_mem_nil x)
  | cons a rest ih =>
    intro h x hx y hy hfxy
    simp only [List.map_cons, List.nodup_cons] at h
    obtain ⟨hnotin, hnd⟩ := h
    rcases List.mem_cons.mp hx with hxa | hx2
    · rcases List.mem_cons.mp hy with hya | hy2
      · rw [hxa, hya]
      · exfalso
        apply hnotin
        rw [← hxa, hfxy]
        exact List.mem_map_of_mem f hy2
    · rcases List.mem_cons.mp hy with hya | hy2
      · exfalso
        apply hnotin
        rw [← hya, ← hfxy]
        exact List.mem_map_of_mem f hx2
      · exact ih hnd x hx2 y hy2 hfxy

/-- When nothing is published yet, the loop attempts every record. -/
theorem callsFrom_all (pids : List (String × PublishedEntry))
    (l : List StreamRecord)
    (h : ∀ s ∈ l, (getKey pids (sidOf s)).isNone = true) :
    callsFrom pids l = l.map sidOf := by
  unfold callsFrom
  rw [List.filter_eq_self.mpr h]

/-- When nothing is published yet and every publish succeeds, the created
identities are exactly the feed identities in feed order. -/
theorem createdFrom_all (fmt : Int → String)
    (pub : String → String → String → Option String)
    (pids : List (String × PublishedEntry)) (l : List StreamRecord)
    (h : ∀ s ∈ l, (getKey pids (sidOf s)).isNone = true ∧
      (pubFor fmt pub s).isSome = true) :
    (createdFrom fmt pub pids l).map CreatedEntry.sid = l.map sidOf ∧
    (createdFrom fmt pub pids l).length = l.length := by
  induction l with
  | nil => exact ⟨rfl, rfl⟩
  | cons s rest ih =>
    obtain ⟨h1, h2⟩ := h s (List.mem_cons_self s rest)
    obtain ⟨pid, hpid⟩ := Option.isSome_iff_exists.mp h2
    obtain ⟨ihA, ihB⟩ := ih (fun t ht => h t (List.mem_cons_of_mem s ht))
    unfold createdFrom at *
    simp only [List.filterMap_cons, h1, hpid, if_true, Option.map_some']
    constructor
    · simp only [List.map_cons, ihA]
    · simp only [List.length_cons, ihB]

/-- Characterization of one loop run over records with non-empty,
pairwise-distinct identities: the attempted identities are the unpublished
records in feed order, the created entries are the unpublished records
whose publish succeeded in feed order, and the final ledger map is the
initial one extended by exactly the created entries. -/
theorem processStreams_char (fmt : Int → String)
    (pub : String → String → String → Option String) (now : String)
    (l : List StreamRecord) :
    ∀ pids, (∀ s ∈ l, sidOf s ≠ "") → (l.map sidOf).Nodup →
      (processStreams fmt pub now pids l).2.2 = callsFrom pids l ∧
      (processStreams fmt pub now pids l).2.1 = createdFrom fmt pub pids l ∧
      ∀ x, getKey (processStreams fmt pub now pids l).1 x =
        lookupCreated (createdFrom fmt pub pids l) now x (getKey pids x) := by
  induction l with
  | nil =>
    intro pids _ _
    exact ⟨rfl, rfl, fun x => rfl⟩
  | cons s rest ih =>
    intro pids hne hnd
    have hs : sidOf s ≠ "" := hne s (List.mem_cons_self s rest)
    have hner : ∀ t ∈ rest, sidOf t ≠ "" :=
      fun t ht => hne t (List.mem_cons_of_mem s ht)
    simp only [List.map_cons, List.nodup_cons] at hnd
    obtain ⟨hnotin, hndr⟩ := hnd
    rw [processStreams_cons, if_neg hs]
    cases hk : getKey pids (sidOf s) with
    | some v =>
      obtain ⟨ih1, ih2, ih3⟩ := ih pids hner hndr
      have hc : callsFrom pids (s :: rest) = callsFrom pids rest := by
        unfold callsFrom
        simp [List.filter_cons, hk]
      have hcr : createdFrom fmt pub pids (s :: rest) =
          createdFrom fmt pub pids rest := by
        unfold createdFrom
        simp [List.filterMap_cons, hk]
      rw [hc, hcr]
      exact ⟨ih1, ih2, ih3⟩
    | none =>
      cases hp : pubFor fmt pub s with
      | none =>
        dsimp only
        obtain ⟨ih1, ih2, ih3⟩ := ih pids hner hndr
        have hc : callsFrom pids (s :: rest) = sidOf s :: callsFrom pids rest := by
          unfold callsFrom
          simp [List.filter_cons, hk]
        have hcr : createdFrom fmt pub pids (s :: rest) =
            createdFrom fmt pub pids rest := by
          unfold createdFrom
          simp [List.filterMap_cons, hk, hp]
        rw [hc, hcr]
        exact ⟨by rw [ih1], ih2, ih3⟩
      | some postId =>
        dsimp only
        have hset : ∀ t ∈ rest,
            getKey (setKey pids (sidOf s)
              { postId := postId, createdAt := now, title := titleOf s }) (sidOf t) =
            getKey pids (sidOf t) := by
          intro t ht
          rw [getKey_setKey]
          have hst : ¬ sidOf s = sidOf t := fun he => hnotin (by
            rw [he]
            exact List.mem_map_of_mem sidOf ht)
          rw [if_neg hst]
        obtain ⟨ih1, ih2, ih3⟩ := ih (setKey pids (sidOf s)
          { postId := postId, createdAt := now, title := titleOf s }) hner hndr
        have e1 : callsFrom (setKey pids (sidOf s)
            { postId := postId, createdAt := now, title := titleOf s }) rest =
            callsFrom pids rest := callsFrom_congr _ _ _ hset
        have e2 : createdFrom fmt pub (setKey pids (sidOf s)
            { postId := postId, createdAt := now, title := titleOf s }) rest =
            createdFrom fmt pub pids rest := createdFrom_congr _ _ _ _ _ hset
        have hc : callsFrom pids (s :: rest) = sidOf s :: callsFrom pids rest := by
          unfold callsFrom
          simp [List.filter_cons, hk]
        have hcr : createdFrom fmt pub pids (s :: rest) =
            { sid := sidOf s, postId := postId, title := titleOf s } ::
              createdFrom fmt pub pids rest := by
          unfold createdFrom
          simp [List.filterMap_cons, hk, hp]
        refine ⟨?_, ?_, ?_⟩
        · rw [ih1, e1, hc]
        · rw [ih2, e2, hcr]
        · intro x
          rw [ih3 x, e2, hcr]
          rw [getKey_setKey]
          simp only [lookupCreated]
          by_cases hx : sidOf s = x
          · rw [if_pos hx, if_pos hx]
            have hskip : ∀ e ∈ createdFrom fmt pub pids rest, e.sid ≠ x := by
              intro e he hex
              rcases mem_createdFrom fmt pub pids rest e he with ⟨t, ht, hesid, _, _, _⟩
              apply hnotin
              rw [hx, ← hex, hesid]
              exact List.mem_map_of_mem sidOf ht
            rw [lookupCreated_skip _ _ _ _ hskip]
          · rw [if_neg hx, if_neg hx]

/-- A lookup through created entries with a present default is present. -/
theorem lookupCreated_isSome_default (cs : List CreatedEntry) (now x : String)
    (v : PublishedEntry) : (lookupCreated cs now x (some v)).isSome = true := by
  induction cs with
  | nil => rfl
  | cons e rest ih =>
    simp only [lookupCreated]
    by_cases he : e.sid = x
    · rw [if_pos he]; rfl
    · rw [if_neg he]; exact ih

/-- An option that is present is not absent. -/
theorem isNone_false_of_isSome (o : Option PublishedEntry)
    (h : o.isSome = true) : o.isNone = false := by
  cases o
  · simp at h
  · rfl

/-- A record whose publish fails contributes no created entry, under
pairwise-distinct identities. -/
theorem not_mem_created_of_fail (fmt : Int → String)
    (pub : String → String → String → Option String)
    (pids : List (String × PublishedEntry)) (l : List StreamRecord)
    (s : StreamRecord) (hnd : (l.map sidOf).Nodup) (hs : s ∈ l)
    (hp : pubFor fmt pub s = none) :
    ∀ e ∈ createdFrom fmt pub pids l, e.sid ≠ sidOf s := by
  intro e he hex
  rcases mem_createdFrom fmt pub pids l e he with ⟨t, ht, hesid, _, _, hpt⟩
  have hts : t = s :=
    nodup_map_inj sidOf l hnd t ht s hs (hesid.symm.trans hex)
  rw [hts, hp] at hpt
  exact Option.noConfusion hpt

/-- Unfolding of a pass with a missing credential. -/
theorem sync_noCred (fmt : Int → String)
    (pub : String → String → String → Option String) (now : String)
    (stored : Option DB) (fetched : Option Feed)
    (h : truthyO (readDB stored).refresh_token = false) :
    syncAndCreatePosts fmt pub now stored fetched =
      { result := .error .missingCredential, db := readDB stored,
        saved := false, pubCalls := [] } := by
  simp [syncAndCreatePosts, h]

/-- Unfolding of a pass whose feed retrieval fails. -/
theorem sync_noFetch (fmt : Int → String)
    (pub : String → String → String → Option String) (now : String)
    (stored : Option DB) (h : truthyO (readDB stored).refresh_token = true) :
    syncAndCreatePosts fmt pub now stored none =
      { result := .error .feedFetch, db := readDB stored,
        saved := false, pubCalls := [] } := by
  simp [syncAndCreatePosts, h]

/-- Unfolding of a successful pass. -/
theorem sync_ok (fmt : Int → String)
    (pub : String → String → String → Option String) (now : String)
    (stored : Option DB) (j : Feed)
    (h : truthyO (readDB stored).refresh_token = true) :
    syncAndCreatePosts fmt pub now stored (some j) =
      { result := .ok
          { createdCount :=
              (processStreams fmt pub now (readDB stored).postedIds (collectStreams j)).2.1.length,
            created :=
              (processStreams fmt pub now (readDB stored).postedIds (collectStreams j)).2.1 },
        db := { readDB stored with postedIds :=
          (processStreams fmt pub now (readDB stored).postedIds (collectStreams j)).1 },
        saved := true,
        pubCalls :=
          (processStreams fmt pub now (readDB stored).postedIds (collectStreams j)).2.2 } := by
  simp [syncAndCreatePosts, h]

/-- Unfolding of a successful pass over an in-memory ledger. -/
theorem sync_ok_db (fmt : Int → String)
    (pub : String → String → String → Option String) (now : String)
    (db0 : DB) (j : Feed) (h : truthyO db0.refresh_token = true) :
    syncAndCreatePosts fmt pub now (some db0) (some j) =
      { result := .ok
          { createdCount :=
              (processStreams fmt pub now db0.postedIds (collectStreams j)).2.1.length,
            created := (processStreams fmt pub now db0.postedIds (collectStreams j)).2.1 },
        db := { db0 with postedIds :=
          (processStreams fmt pub now db0.postedIds (collectStreams j)).1 },
        saved := true,
        pubCalls := (processStreams fmt pub now db0.postedIds (collectStreams j)).2.2 } := by
  simp [syncAndCreatePosts, readDB, h]

/-- The loop keeps the ledger keys pairwise distinct. -/
theorem processStreams_keys_nodup (fmt : Int → String)
    (pub : String → String → String → Option String) (now : String)
    (l : List StreamRecord) :
    ∀ pids, (pids.map Prod.fst).Nodup →
      (((processStreams fmt pub now pids l).1).map Prod.fst).Nodup := by
  induction l with
  | nil => intro pids h; exact h
  | cons s rest ih =>
    intro pids h
    rw [processStreams_cons]
    by_cases hs : sidOf s = ""
    · rw [if_pos hs]; exact ih pids h
    · rw [if_neg hs]
      cases hk : getKey pids (sidOf s) with
      | some v => exact ih pids h
      | none =>
        cases hp : pubFor fmt pub s with
        | none => dsimp only; exact ih pids h
        | some postId =>
          dsimp only
          apply ih
          rw [keys_setKey_none _ _ _ hk]
          have hnot : sidOf s ∉ pids.map Prod.fst := (getKey_eq_none_iff _ _).mp hk
          simp [List.nodup_append, h, hnot]

/-- Claim C1: at-most-once publication.  For every identity `x` already
present in the ledger's published map when the pass begins, the pass never
invokes the publisher for `x`, leaves `x`'s binding unchanged, creates no
second ledger entry for `x`; and within any pass no identity is published
twice (the created identities of a successful pass are pairwise
distinct). -/
theorem atMostOncePublication (fmt : Int → String)
    (pub : String → String → String → Option String) (now : String)
    (stored : Option DB) (fetched : Option Feed) (x : String)
    (h : (getKey (readDB stored).postedIds x).isSome = true) :
    x ∉ (syncAndCreatePosts fmt pub now stored fetched).pubCalls ∧
    getKey (syncAndCreatePosts fmt pub now stored fetched).db.postedIds x =
      getKey (readDB stored).postedIds x ∧
    countKey (syncAndCreatePosts fmt pub now stored fetched).db.postedIds x =
      countKey (readDB stored).postedIds x ∧
    ∀ r, (syncAndCreatePosts fmt pub now stored fetched).result = PassResult.ok r →
      (r.created.map CreatedEntry.sid).Nodup := by
  by_cases hcred : truthyO (readDB stored).refresh_token = true
  · cases fetched with
    | none =>
      rw [sync_noFetch fmt pub now stored hcred]
      refine ⟨by simp, rfl, rfl, ?_⟩
      intro r hr
      exact absurd hr (by simp)
    | some j =>
      rw [sync_ok fmt pub now stored j hcred]
      obtain ⟨h1, h2, h3⟩ := processStreams_preserved fmt pub now (collectStreams j)
        (readDB stored).postedIds x h
      refine ⟨h1, h2, h3, ?_⟩
      intro r hr
      injection hr with hres
      obtain ⟨_, hnd⟩ := processStreams_created fmt pub now (collectStreams j)
        (readDB stored).postedIds
      rw [← hres]
      exact hnd
  · have hcred2 : truthyO (readDB stored).refresh_token = false := by
      cases hb : truthyO (readDB stored).refresh_token
      · rfl
      · exact absurd hb hcred
    rw [sync_noCred fmt pub now stored fetched hcred2]
    exact ⟨by simp, rfl, rfl, fun r hr => absurd hr (by simp)⟩

/-- Claim C1 witness: with identity X already in the ledger and a feed that
resolves to X twice, the pass never calls the publisher for X. -/
theorem atMostOncePublication_witness :
    (getKey (readDB (some dbWithX)).postedIds "X").isSome = true ∧
    "X" ∉ (syncAndCreatePosts fmt0 pubOk "now" (some dbWithX)
      (some (Feed.flat [recNamed "X", recNamed "X"]))).pubCalls :=
  ⟨by decide,
   (atMostOncePublication fmt0 pubOk "now" (some dbWithX)
      (some (Feed.flat [recNamed "X", recNamed "X"])) "X" (by decide)).1⟩

/-- Claim C4: pass-level errors are atomic.  With no stored credential the
pass fails with the missing-credential error before any feed observation
(the outcome does not depend on the fetch result), and with a credential
but a failed feed retrieval it fails with the feed-fetch error; in both
cases nothing is published, the in-memory ledger equals the loaded one and
no save is performed. -/
theorem passLevelErrorsAtomic (fmt : Int → String)
    (pub : String → String → String → Option String) (now : String)
    (stored : Option DB) (fetched : Option Feed) :
    (truthyO (readDB stored).refresh_token = false →
      syncAndCreatePosts fmt pub now stored fetched =
        { result := .error .missingCredential, db := readDB stored,
          saved := false, pubCalls := [] } ∧
      ∀ fetched2, syncAndCreatePosts fmt pub now stored fetched2 =
        syncAndCreatePosts fmt pub now stored fetched) ∧
    (truthyO (readDB stored).refresh_token = true → fetched = none →
      syncAndCreatePosts fmt pub now stored fetched =
        { result := .error .feedFetch, db := readDB stored,
          saved := false, pubCalls := [] }) := by
  constructor
  · intro h
    refine ⟨sync_noCred fmt pub now stored fetched h, ?_⟩
    intro fetched2
    rw [sync_noCred fmt pub now stored fetched2 h,
      sync_noCred fmt pub now stored fetched h]
  · intro h hf
    subst hf
    exact sync_noFetch fmt pub now stored h

/-- Claim C4 witness: both error paths at concrete inputs. -/
theorem passLevelErrorsAtomic_witness :
    syncAndCreatePosts fmt0 pubOk "now"
        (some { postedIds := [], refresh_token := none }) (some demoFeed3) =
      { result := .error .missingCredential,
        db := { postedIds := [], refresh_token := none },
        saved := false, pubCalls := [] } ∧
    syncAndCreatePosts fmt0 pubOk "now" (some dbTok) none =
      { result := .error .feedFetch, db := dbTok, saved := false, pubCalls := [] } :=
  ⟨((passLevelErrorsAtomic fmt0 pubOk "now"
      (some { postedIds := [], refresh_token := none }) (some demoFeed3)).1
      (by decide)).1,
   (passLevelErrorsAtomic fmt0 pubOk "now" (some dbTok) none).2 (by decide) rfl⟩

/-- Claim C9: order preservation.  Records are processed in feed order: for
a feed whose records all carry distinct non-empty identities, none of which
is published yet, the publisher is invoked exactly once per record in feed
order; and when every publish succeeds, the created sequence lists exactly
the feed identities in feed order with the matching count. -/
theorem orderPreservation (fmt : Int → String)
    (pub : String → String → String → Option String) (now : String)
    (db0 : DB) (j : Feed)
    (hcred : truthyO db0.refresh_token = true)
    (hne : ∀ s ∈ collectStreams j, sidOf s ≠ "")
    (hnd : ((collectStreams j).map sidOf).Nodup)
    (hfresh : ∀ s ∈ collectStreams j, getKey db0.postedIds (sidOf s) = none)
    (hsucc : ∀ s ∈ collectStreams j, (pubFor fmt pub s).isSome = true) :
    (syncAndCreatePosts fmt pub now (some db0) (some j)).pubCalls =
      (collectStreams j).map sidOf ∧
    ∀ r, (syncAndCreatePosts fmt pub now (some db0) (some j)).result = PassResult.ok r →
      r.created.map CreatedEntry.sid = (collectStreams j).map sidOf ∧
      r.createdCount = (collectStreams j).length := by
  rw [sync_ok_db fmt pub now db0 j hcred]
  obtain ⟨c1, c2, _⟩ := processStreams_char fmt pub now (collectStreams j)
    db0.postedIds hne hnd
  have hfr : ∀ s ∈ collectStreams j, (getKey db0.postedIds (sidOf s)).isNone = true := by
    intro s hs
    rw [hfresh s hs]
    rfl
  obtain ⟨mA, mB⟩ := createdFrom_all fmt pub db0.postedIds (collectStreams j)
    (fun s hs => ⟨hfr s hs, hsucc s hs⟩)
  constructor
  · dsimp only
    rw [c1]
    exact callsFrom_all _ _ hfr
  · intro r hr
    injection hr with hres
    rw [← hres]
    dsimp only
    rw [c2]
    exact ⟨mA, by rw [mB]⟩

/-- Claim C9 witness: feed [A, B, C], all new, all succeeding. -/
theorem orderPreservation_witness :
    (syncAndCreatePosts fmt0 pubOk "now" (some dbTok) (some demoFeed3)).pubCalls =
      ["A", "B", "C"] := by
  have h := orderPreservation fmt0 pubOk "now" dbTok demoFeed3
    (by decide) (by decide) (by decide) (by decide) (by decide)
  rw [h.1]
  decide

/-- Claim C3: per-record failure isolation.  Over a feed with distinct
non-empty identities, every unpublished record is attempted in feed order
no matter which publishes fail; a record whose publish fails gains no
ledger entry and does not appear in the result; and a second pass over the
same feed attempts exactly the identities that failed (the ones that
succeeded, and the previously published ones, are skipped). -/
theorem failureIsolation (fmt : Int → String)
    (pub : String → String → String → Option String) (now : String)
    (db0 : DB) (j : Feed)
    (hcred : truthyO db0.refresh_token = true)
    (hne : ∀ s ∈ collectStreams j, sidOf s ≠ "")
    (hnd : ((collectStreams j).map sidOf).Nodup) :
    (syncAndCreatePosts fmt pub now (some db0) (some j)).pubCalls =
      ((collectStreams j).filter
        (fun s => (getKey db0.postedIds (sidOf s)).isNone)).map sidOf ∧
    (∀ s ∈ collectStreams j, getKey db0.postedIds (sidOf s) = none →
      pubFor fmt pub s = none →
      getKey (syncAndCreatePosts fmt pub now (some db0) (some j)).db.postedIds
        (sidOf s) = none ∧
      ∀ r, (syncAndCreatePosts fmt pub now (some db0) (some j)).result =
          PassResult.ok r →
        sidOf s ∉ r.created.map CreatedEntry.sid) ∧
    (syncAndCreatePosts fmt pub now
        (some (syncAndCreatePosts fmt pub now (some db0) (some j)).db)
        (some j)).pubCalls =
      ((collectStreams j).filter
        (fun s => (getKey db0.postedIds (sidOf s)).isNone &&
          (pubFor fmt pub s).isNone)).map sidOf := by
  obtain ⟨c1, c2, c3⟩ := processStreams_char fmt pub now (collectStreams j)
    db0.postedIds hne hnd
  rw [sync_ok_db fmt pub now db0 j hcred]
  refine ⟨?_, ?_, ?_⟩
  · dsimp only
    rw [c1]
    rfl
  · intro s hs hg hp
    have hskip : ∀ e ∈ createdFrom fmt pub db0.postedIds (collectStreams j),
        e.sid ≠ sidOf s :=
      not_mem_created_of_fail fmt pub db0.postedIds (collectStreams j) s hnd hs hp
    constructor
    · dsimp only
      rw [c3 (sidOf s), hg]
      exact lookupCreated_skip _ _ _ _ hskip
    · intro r hr
      injection hr with hres
      rw [← hres]
      dsimp only
      rw [c2]
      intro hmem
      rcases List.mem_map.mp hmem with ⟨e, he, hesid⟩
      exact hskip e he hesid
  · dsimp only
    have hcred2 : truthyO ({ db0 with postedIds :=
        (processStreams fmt pub now db0.postedIds (collectStreams j)).1 } :
        DB).refresh_token = true := hcred
    rw [sync_ok_db fmt pub now _ j hcred2]
    dsimp only
    obtain ⟨d1, _, _⟩ := processStreams_char fmt pub now (collectStreams j)
      (processStreams fmt pub now db0.postedIds (collectStreams j)).1 hne hnd
    rw [d1]
    unfold callsFrom
    apply congrArg (List.map sidOf)
    apply filterCongrMem
    intro t ht
    rw [c3 (sidOf t)]
    cases hg : getKey db0.postedIds (sidOf t) with
    | some v =>
      have hsome := lookupCreated_isSome_default
        (createdFrom fmt pub db0.postedIds (collectStreams j)) now (sidOf t) v
      rw [isNone_false_of_isSome _ hsome]
      rfl
    | none =>
      cases hpt : pubFor fmt pub t with
      | none =>
        have hskip : ∀ e ∈ createdFrom fmt pub db0.postedIds (collectStreams j),
            e.sid ≠ sidOf t :=
          not_mem_created_of_fail fmt pub db0.postedIds (collectStreams j) t hnd ht hpt
        rw [lookupCreated_skip _ _ _ _ hskip]
        rfl
      | some pid =>
        have hmem := sid_mem_createdFrom fmt pub db0.postedIds (collectStreams j)
          t pid ht hg hpt
        have hsome := lookupCreated_isSome
          (createdFrom fmt pub db0.postedIds (collectStreams j)) now (sidOf t)
          none hmem
        rw [isNone_false_of_isSome _ hsome]
        rfl

/-- Claim C3 witness: feed [A, B, C], publishing B fails, A and C succeed;
the first pass attempts A, B, C and the second pass attempts exactly B. -/
theorem failureIsolation_witness :
    (syncAndCreatePosts fmt0 (pubFailTitle "B") "now" (some dbTok)
      (some demoFeed3)).pubCalls = ["A", "B", "C"] ∧
    (syncAndCreatePosts fmt0 (pubFailTitle "B") "now"
      (some (syncAndCreatePosts fmt0 (pubFailTitle "B") "now" (some dbTok)
        (some demoFeed3)).db)
      (some demoFeed3)).pubCalls = ["B"] := by
  have h := failureIsolation fmt0 (pubFailTitle "B") "now" dbTok demoFeed3
    (by decide) (by decide) (by decide)
  constructor
  · rw [h.1]
    decide
  · rw [h.2.2]
    decide

/-- Claim C2 counterexample: a nested-shape record with no explicit id, a
tag "t" and a name "n" resolves to the tag "t", not to the name "n" — the
nested normalizer copies the tag into the id field first (index.js line
127), so tag beats name for nested records, contradicting the claimed
precedence. -/
theorem identityPrecedence_counterexample :
    demoTagName.id = none ∧ demoTagName.name = some "n" ∧
    demoTagName.tag = some "t" ∧
    (collectStreams demoNestedFeed).map sidOf = ["t"] ∧
    ("t" : String) ≠ "n" := by decide

/-- Claim C2 (amended): the resolver itself follows the precedence id,
uri-name, name, title, tag (first non-empty wins); flat-shape records reach
the resolver unchanged, so the claimed precedence holds for them; but a
nested-shape record with empty id and non-empty tag has the tag copied into
the id field by the normalizer, so it resolves to its tag even when
uri-name, name or title are present. -/
theorem identityPrecedence (s0 : StreamRecord) :
    sidOf s0 = specIdentity s0 ∧
    (∀ ss : List StreamRecord, collectStreams (Feed.flat ss) = ss) ∧
    (∀ (cat : CatGroup) (s : StreamRecord),
      truthyO s.id = false → truthyO s.tag = true →
      sidOf (normalizeNestedStream cat s) = jsOr s.tag "") := by
  refine ⟨?_, fun ss => rfl, ?_⟩
  · obtain ⟨i, u, n, t, g, _, _, _, _, _, _⟩ := s0
    cases i <;> cases u <;> cases n <;> cases t <;> cases g <;>
      simp [sidOf, specIdentity, firstNonEmpty, jsOr]
  · intro cat s hid htag
    cases hg : s.tag with
    | none =>
      rw [hg] at htag
      exact absurd htag (by simp [truthyO])
    | some tv =>
      have htv : ¬ tv = "" := by
        intro he
        rw [hg, he] at htag
        simp [truthyO] at htag
      have htt : truthyO (some tv) = true := by simp [truthyO, htv]
      simp [normalizeNestedStream, hid, htag, hg, htt, sidOf, jsOr, htv]

/-- Claim C2 witness: the amended precedence at concrete records. -/
theorem identityPrecedence_witness :
    sidOf demoTagName = specIdentity demoTagName ∧
    sidOf (normalizeNestedStream
      { category := none, category_name := none, streams := some [] }
      demoTagName) = jsOr demoTagName.tag "" :=
  ⟨(identityPrecedence demoTagName).1,
   (identityPrecedence demoTagName).2.2
     { category := none, category_name := none, streams := some [] }
     demoTagName (by decide) (by decide)⟩

set_option maxRecDepth 8000 in
/-- Claim C5: HTML escaping of the body.  The code's escape equals the
spec's per-entity replacement; an escaped value contains no raw markup
character; and the number of `<` characters in any rendered body depends
only on which optional blocks are present, never on the interpolated field
values — so no feed-controlled field can inject markup into the body. -/
theorem htmlEscapingBody :
    (∀ s : String, escapeHtmlStr s = specEscape s) ∧
    (∀ v : String, noRawMarkup (escapeHtmlStr v)) ∧
    (∀ (fmt : Int → String) (s : StreamRecord),
      countChar '<' (renderContent fmt s) =
        12 + (if truthyO s.poster then 3 else 0) +
          (if embedUrlOf s = "" then 0 else 4)) := by
  refine ⟨?_, ?_, ?_⟩
  · intro s
    rw [escapeHtmlStr_eq_mk, specEscape, escChars_eq_specEscapeChars]
  · intro v c hc
    rw [escapeHtmlStr_eq_mk] at hc
    exact mem_escChars_safe _ _ hc
  · intro fmt s
    have hesc : ∀ v : String, countCh '<' (escapeHtmlStr v).data = 0 :=
      fun v => countChar_lt_escapeHtmlStr v
    unfold renderContent countChar
    simp only [dataAppend, countCh_append, hesc]
    split_ifs with h1 h2 <;>
      simp only [dataAppend, countCh_append, hesc] <;> decide

/-- Claim C5 witness: the escape equality and markup-safety at a concrete
value and character. -/
theorem htmlEscapingBody_witness :
    escapeHtmlStr "<&" = specEscape "<&" ∧
    ('&' ≠ '<' ∧ '&' ≠ '>' ∧ '&' ≠ '"' ∧ '&' ≠ Char.ofNat 39) :=
  ⟨htmlEscapingBody.1 "<&", htmlEscapingBody.2.1 "<&" '&' (by decide)⟩

/-- Claim C10: `escapeHtml` is total over JavaScript values and maps every
falsy input — undefined, null, 0, the empty string — to the empty string,
so a record with missing optional fields renders empty text for them and
the literals "undefined" / "null" (which the raw coercion would produce)
never reach the body. -/
theorem escapeHtmlTotal :
    (∀ v : JSVal, v.truthy = false → escapeHtml v = "") ∧
    escapeHtml JSVal.undef = "" ∧ escapeHtml JSVal.null = "" ∧
    escapeHtml (JSVal.num 0) = "" ∧ escapeHtml (JSVal.str "") = "" ∧
    JSVal.toStr JSVal.undef = "undefined" ∧ JSVal.toStr JSVal.null = "null" ∧
    (∀ fmt : Int → String, renderContent fmt emptyStreamRecord =
      "\n      <p><strong>Category:</strong> </p>\n      <p><strong>Starts:</strong> TBA</p>\n      \n      <p></p>\n      \n      <p>Source: auto-generated from events JSON.</p>\n    ") := by
  refine ⟨?_, rfl, rfl, rfl, rfl, rfl, rfl, fun fmt => rfl⟩
  intro v hv
  simp [escapeHtml, hv, JSVal.toStr, escChars]

/-- Claim C10 witness: the number 0 is falsy and escapes to the empty
string. -/
theorem escapeHtmlTotal_witness :
    JSVal.truthy (JSVal.num 0) = false ∧ escapeHtml (JSVal.num 0) = "" :=
  ⟨by decide, escapeHtmlTotal.1 (JSVal.num 0) (by decide)⟩

/-- Claim C6 counterexample: recording a publish under an identity that
already has a ledger entry does not fail — the assignment
`db.postedIds[sid] = {...}` (index.js line 168) silently replaces the
existing entry; no ConflictError exists anywhere in the code. -/
theorem recordPublished_counterexample :
    setKey [("x", pe1)] "x" pe2 = [("x", pe2)] ∧ pe1 ≠ pe2 ∧
    getKey (setKey [("x", pe1)] "x" pe2) "x" = some pe2 := by decide

/-- Claim C6 (amended): the recording operation is a plain key assignment:
on an existing identity it silently replaces the stored entry (same key
count, new value) and signals nothing; the orchestrator's skip check is
what keeps ledger keys pairwise distinct across a pass. -/
theorem recordReplacesSilently :
    (∀ (l : List (String × PublishedEntry)) (k : String) (v : PublishedEntry),
      getKey (setKey l k v) k = some v) ∧
    (∀ (l : List (String × PublishedEntry)) (k : String) (v : PublishedEntry),
      (getKey l k).isSome = true → (setKey l k v).length = l.length) ∧
    (∀ (fmt : Int → String) (pub : String → String → String → Option String)
       (now : String) (pids : List (String × PublishedEntry))
       (l : List StreamRecord),
      (pids.map Prod.fst).Nodup →
      (((processStreams fmt pub now pids l).1).map Prod.fst).Nodup) :=
  ⟨fun l k v => getKey_setKey_self l k v,
   fun l k v h => length_setKey_isSome l k v h,
   fun fmt pub now pids l h => processStreams_keys_nodup fmt pub now l pids h⟩

/-- Claim C6 witness: replacement and key-uniqueness at concrete values. -/
theorem recordReplacesSilently_witness :
    getKey (setKey [] "x" pe1) "x" = some pe1 ∧
    (setKey [("x", pe1)] "x" pe2).length = [("x", pe1)].length ∧
    (((processStreams fmt0 pubOk "now" [] [recNamed "A"]).1).map Prod.fst).Nodup :=
  ⟨recordReplacesSilently.1 [] "x" pe1,
   recordReplacesSilently.2.1 [("x", pe1)] "x" pe2 (by decide),
   recordReplacesSilently.2.2 fmt0 pubOk "now" [] [recNamed "A"] (by decide)⟩

/-- Claim C7: the ledger save is not crash-atomic.  `writeDB` is a single
direct `fs.writeFileSync` to the db file — no temporary file and no rename —
so under the standard crash model a crash mid-write can leave the file
holding a strict truncation of the new content (for instance the single
character `{`), which is neither valid prior content nor the new ledger:
a half-written ledger file. -/
theorem writeDbNotCrashAtomic :
    (∀ (f : String) (db : DB), writeDB f db = [FsOp.write f (serializeDB db)]) ∧
    (∀ (f : String) (db : DB), usesTempThenRename f (writeDB f db) = false) ∧
    ((serializeDB (readDB none)).take 1 ∈ writeCrashStates (serializeDB (readDB none)) ∧
     (serializeDB (readDB none)).take 1 ≠ serializeDB (readDB none) ∧
     (serializeDB (readDB none)).take 1 ≠ "") := by
  refine ⟨fun f db => rfl, fun f db => ?_, by decide, by decide, by decide⟩
  simp [usesTempThenRename, writeDB, directlyWrites, renamesOnto]

/-- Claim C8 counterexample: a corrupt or absent persisted ledger also
loses the stored credential, so the immediately subsequent pass does not
proceed — it fails with the missing-credential error and attempts
nothing. -/
theorem corruptLedger_counterexample :
    (syncAndCreatePosts fmt0 pubOk "now" none (some demoFeed3)).result =
      PassResult.error SyncError.missingCredential ∧
    (syncAndCreatePosts fmt0 pubOk "now" none (some demoFeed3)).pubCalls = [] ∧
    (syncAndCreatePosts fmt0 pubOk "now" none (some demoFeed3)).saved = false := by
  decide

/-- Claim C8 (amended): loading never raises and an absent, unreadable or
unparsable store loads as the fresh empty ledger (empty published map, no
credential); every identity is then unpublished; and once a credential is
stored again, a pass over the fresh ledger treats every identity as new —
each non-empty identity occurring in the feed is attempted. -/
theorem corruptLedgerRecovery :
    readDB none = { postedIds := [], refresh_token := none } ∧
    (∀ x, getKey (readDB none).postedIds x = none) ∧
    (∀ (fmt : Int → String) (pub : String → String → String → Option String)
       (now tok : String) (j : Feed), tok ≠ "" →
       ∀ s ∈ collectStreams j, sidOf s ≠ "" →
         sidOf s ∈ (syncAndCreatePosts fmt pub now
           (some { postedIds := [], refresh_token := some tok }) (some j)).pubCalls) := by
  refine ⟨rfl, fun x => rfl, ?_⟩
  intro fmt pub now tok j htok s hs hsid
  have hcred : truthyO ({ postedIds := [], refresh_token := some tok } : DB).refresh_token
      = true := by
    simp [truthyO, htok]
  rw [sync_ok_db fmt pub now _ j hcred]
  dsimp only
  rcases processStreams_attempts fmt pub now (collectStreams j)
    ({ postedIds := [], refresh_token := some tok } : DB).postedIds s hs hsid with
    hin | habs
  · exact hin
  · exact absurd habs (by simp [getKey])

/-- Claim C8 witness: after re-storing a credential over a fresh ledger,
identity A of the demo feed is attempted. -/
theorem corruptLedgerRecovery_witness :
    sidOf (recNamed "A") ∈ (syncAndCreatePosts fmt0 pubOk "now"
      (some { postedIds := [], refresh_token := some "tok" })
      (some demoFeed3)).pubCalls :=
  corruptLedgerRecovery.2.2 fmt0 pubOk "now" "tok" demoFeed3 (by decide)
    (recNamed "A") (by decide) (by decide)
